import Mathlib

/-!
Shallow embedding of `src/aggregate_stock_data.py` (a pandas pipeline that
merges a daily stock price CSV with a news headline CSV into one JSON
document with one record per calendar day).

Calendar dates are represented by their proleptic-Gregorian day ordinal
(days since 0000-03-01), exactly as pandas represents timestamps by an
integer day count; only differences and comparisons of these ordinals are
ever used, so the choice of epoch is irrelevant.  `pd.date_range(a, b,
freq='D')` is the list of consecutive ordinals from `a` to `b`.
-/

namespace StockAgg

instance {ε α : Type} [DecidableEq ε] [DecidableEq α] : DecidableEq (Except ε α) := fun x y =>
  match x, y with
  | .error a, .error b =>
    if h : a = b then isTrue (congrArg Except.error h)
    else isFalse (fun e => h (Except.error.inj e))
  | .error _, .ok _ => isFalse (fun e => Except.noConfusion e)
  | .ok _, .error _ => isFalse (fun e => Except.noConfusion e)
  | .ok a, .ok b =>
    if h : a = b then isTrue (congrArg Except.ok h)
    else isFalse (fun e => h (Except.ok.inj e))

/-- Split a character list at every occurrence of `sep` (the single-character
case of `str.split` / `String.splitOn`, written structurally). -/
def splitOnC (sep : Char) : List Char → List (List Char)
  | [] => [[]]
  | c :: cs =>
    let r := splitOnC sep cs
    if c = sep then [] :: r
    else
      match r with
      | [] => [[c]]
      | g :: gs => (c :: g) :: gs

/-- Value of a decimal digit character. -/
def digitVal? (c : Char) : Option Nat :=
  if '0' ≤ c ∧ c ≤ '9' then some (c.toNat - '0'.toNat) else none

/-- Decimal number denoted by a nonempty all-digit character list. -/
def natOfDigits (l : List Char) : Option Nat :=
  if l.isEmpty then none
  else
    l.foldl
      (fun acc c =>
        match acc, digitVal? c with
        | some n, some d => some (10 * n + d)
        | _, _ => none)
      (some 0)

/-- Gregorian leap-year test. -/
def isLeap (y : Nat) : Bool :=
  (y % 4 == 0 && y % 100 != 0) || y % 400 == 0

/-- Number of days in month `m` of year `y`. -/
def daysInMonth (y m : Nat) : Nat :=
  if m = 2 then (if isLeap y then 29 else 28)
  else if m = 4 ∨ m = 6 ∨ m = 9 ∨ m = 11 then 30
  else 31

/-- Day ordinal of a (valid) civil date, via the standard days-from-civil
formula (shifted year starting in March).  Monotone in calendar order and
consecutive calendar days map to consecutive ordinals, which is all the
pipeline uses. -/
def toOrdinal (y m d : Nat) : Nat :=
  let y2 := if m ≤ 2 then y - 1 else y
  let mp := if m ≤ 2 then m + 9 else m - 3
  365 * y2 + y2 / 4 - y2 / 100 + y2 / 400 + (153 * mp + 2) / 5 + d - 1

/-- Smallest day ordinal whose midnight is representable as a pandas
`datetime64[ns]` timestamp (the type's minimum is 1677-09-21 00:12:43.14…,
so 1677-09-22 is the first fully representable calendar day). -/
def minDateOrd : Nat := toOrdinal 1677 9 22

/-- Largest day ordinal whose midnight is representable as `datetime64[ns]`
(the maximum is 2262-04-11 23:47:16.85…, so midnight of 2262-04-11 fits). -/
def maxDateOrd : Nat := toOrdinal 2262 4 11

/-- Embeds `pd.to_datetime(s, format='%Y-%m-%d', errors='coerce')` applied to
one cell: strict `YYYY-MM-DD` parse — strptime's `%Y` matches exactly four
digits, `%m`/`%d` one or two, the calendar is validated (bad days of month
raise and are coerced), and a parsed date outside the `datetime64[ns]` range
raises `OutOfBoundsDatetime`, which `errors='coerce'` also turns into `NaT`
(`none`). -/
def parseDateC (l : List Char) : Option Nat :=
  match splitOnC '-' l with
  | [ys, ms, ds] =>
    match natOfDigits ys, natOfDigits ms, natOfDigits ds with
    | some y, some m, some d =>
      if ys.length = 4 && ms.length ≤ 2 && ds.length ≤ 2 &&
         1 ≤ m && m ≤ 12 && 1 ≤ d && d ≤ daysInMonth y m &&
         minDateOrd ≤ toOrdinal y m d && toOrdinal y m d ≤ maxDateOrd
      then some (toOrdinal y m d) else none
    | _, _, _ => none
  | _ => none

/-- String-level wrapper of `parseDateC`. -/
def parseDate (s : String) : Option Nat := parseDateC s.data

/-- Parse `HH:MM:SS` (strptime `%H:%M:%S`) into seconds of day. -/
def parseTimeSecs (l : List Char) : Option Nat :=
  match splitOnC ':' l with
  | [hs, ms, ss] =>
    match natOfDigits hs, natOfDigits ms, natOfDigits ss with
    | some h, some m, some sec =>
      if hs.length ≤ 2 && ms.length ≤ 2 && ss.length ≤ 2 &&
         h < 24 && m < 60 && sec < 60
      then some (3600 * h + 60 * m + sec) else none
    | _, _, _ => none
  | _ => none

/-- The timezone names matched by the primary parse together with their UTC
offsets in seconds (east positive).  pandas' `strptime.pyx` deliberately
overrides the stdlib `%Z` regex with one built from `pytz.all_timezones` and
resolves the matched name via `pytz.timezone(name)` (case-sensitively), so a
matched abbreviation carries its real offset and `utc=True` converts by it.
This table lists the pytz zones with a FIXED offset (no DST): the UTC
aliases and the fixed North-American zones `EST`/`MST`/`HST`.  DST region
zones (`US/Pacific`, `CET`, …) have no single offset and are deliberately
left outside the modelled fragment (`tsFragment`). -/
def tzTable : List (List Char × Int) :=
  [(['U', 'T', 'C'], 0), (['G', 'M', 'T'], 0), (['G', 'M', 'T', '0'], 0),
   (['U', 'C', 'T'], 0), (['Z', 'u', 'l', 'u'], 0),
   (['U', 'n', 'i', 'v', 'e', 'r', 's', 'a', 'l'], 0),
   (['G', 'r', 'e', 'e', 'n', 'w', 'i', 'c', 'h'], 0),
   (['E', 'S', 'T'], -18000), (['M', 'S', 'T'], -25200),
   (['H', 'S', 'T'], -36000)]

/-- UTC offset of a timezone token, when it names a modelled pytz zone. -/
def lookupTz (zs : List Char) : Option Int :=
  (tzTable.find? (fun p => p.1 = zs)).map (fun p => p.2)

/-- Convert a wall-clock (day ordinal, seconds of day) read in a zone of UTC
offset `off` to the UTC (day ordinal, seconds of day): subtract the offset
from the absolute second count (e.g. 2023-01-02 23:30:00 at offset −5h is
2023-01-03 04:30:00 UTC). -/
def shiftToUTC (d t : Nat) (off : Int) : Nat × Nat :=
  ((((86400 * d + t : Int) - off) / 86400).toNat,
   (((86400 * d + t : Int) - off) % 86400).toNat)

/-- Embeds the primary parse
`pd.to_datetime(col, format='%Y-%m-%d %H:%M:%S %Z', errors='coerce', utc=True)`
on one cell: strict date and time, then a `%Z` token that must name a pytz
zone; the zone's offset is attached (pandas resolves `pytz.timezone(name)`)
and `utc=True` converts the moment to UTC.  Result: (day ordinal, seconds of
day) of the UTC moment.  The zone table covers the fixed-offset pytz zones;
`tsFragment` below delimits the strings on which this model is claimed
exact. -/
def primaryParseTS (s : String) : Option (Nat × Nat) :=
  match splitOnC ' ' s.data with
  | [ds, ts, zs] =>
    match parseDateC ds, parseTimeSecs ts, lookupTz zs with
    | some d, some t, some off => some (shiftToUTC d t off)
    | _, _, _ => none
  | _ => none

def isAlphaTok (l : List Char) : Bool := !l.isEmpty && l.all Char.isAlpha

/-- Embeds the fallback `pd.to_datetime(col, utc=True, errors='coerce')`
(dateutil generic parse) restricted to the timestamp shapes of this data
set: a date, a date plus time, or a date plus time plus an alphabetic
timezone word.  dateutil resolves only the `UTC`/`GMT`/`Z` aliases (offset
0); any other bare abbreviation is noted but not understood
(UnknownTimezoneWarning) and the result stays naive, which `utc=True`
localizes as-is to UTC.  dateutil's full grammar is far larger (month
names, slashes, …); `tsFragment` delimits the strings on which this
restriction is claimed exact, and the fragment routes every pytz-zone
suffix to the primary parse first. -/
def fallbackParseTS (s : String) : Option (Nat × Nat) :=
  match splitOnC ' ' s.data with
  | [ds] => (parseDateC ds).map (fun d => (d, 0))
  | [ds, ts] =>
    match parseDateC ds, parseTimeSecs ts with
    | some d, some t => some (d, t)
    | _, _ => none
  | [ds, ts, zs] =>
    match parseDateC ds, parseTimeSecs ts with
    | some d, some t => if isAlphaTok zs then some (d, t) else none
    | _, _ => none
  | _ => none

/-- Combined news timestamp parse: primary format first, generic fallback for
the rows where the primary parse produced `NaT` (lines 43-46 of the source). -/
def parseNewsTS (s : String) : Option (Nat × Nat) :=
  match primaryParseTS s with
  | some v => some v
  | none => fallbackParseTS s

/-- Zero-padded two-digit rendering, as in strftime. -/
def pad2 (n : Nat) : String :=
  if n < 10 then "0" ++ toString n else toString n

/-- Embeds `.dt.strftime('%H:%M:%S')` on a seconds-of-day value. -/
def timeStr (t : Nat) : String :=
  pad2 (t / 3600) ++ ":" ++ pad2 (t / 60 % 60) ++ ":" ++ pad2 (t % 60)

/-- The high/low/close/volume payload of one day.  Prices are modelled as
rationals (the code only copies them; no arithmetic is performed). -/
structure MarketData where
  high : Rat
  low : Rat
  close : Rat
  volume : Int
deriving DecidableEq, Repr

/-- One row of the price CSV as loaded by `pd.read_csv` (the `date` cell is
still a raw string; numeric columns already numbers). -/
structure PriceRowIn where
  date : String
  high : Rat
  low : Rat
  close : Rat
  volume : Int
deriving DecidableEq, Repr

/-- One row of the news CSV: raw `Date` timestamp string and `Article_title`. -/
structure NewsRowIn where
  Date : String
  Article_title : String
deriving DecidableEq, Repr

/-- A surviving, normalized headline row: UTC calendar-day ordinal, `HH:MM:SS`
time string, title (the `date_only`/`time_str`/`Article_title` columns). -/
structure NewsParsed where
  date_only : Nat
  time_str : String
  title : String
deriving DecidableEq, Repr

/-- One output record of the `history` array. -/
structure DayRecord where
  date : Nat
  market_data : MarketData
  news_headlines : List (String × String)
deriving DecidableEq, Repr

/-- The ways the pipeline raises.  `emptyDateRange`: `pd.date_range(NaT, NaT)`
raises ValueError when the price table has no parseable date.
`duplicateLabels`: `reindex` raises ValueError when the date index has
duplicate labels (NaT labels included — pandas treats NaT as equal to NaT for
uniqueness).  `missingMarketData`: `int(...)` raises on NaN (a calendar slot
before any data; unreachable because the first slot is the minimum parseable
date, which has a row). -/
inductive AggErr where
  | emptyDateRange
  | duplicateLabels
  | missingMarketData
deriving DecidableEq, Repr

/-- The parseable price rows: key = day ordinal, payload = market data.
Embeds the date-parsed frame restricted to rows whose date is not NaT; row
order is irrelevant downstream because `reindex` on a unique index is a pure
key lookup (the `sort_values` reordering therefore does not need modelling). -/
def validRows (price : List PriceRowIn) : List (Nat × MarketData) :=
  price.filterMap (fun r =>
    (parseDate r.date).map (fun d => (d, ⟨r.high, r.low, r.close, r.volume⟩)))

/-- The full date index produced by `set_index('date')`, NaT entries (`none`)
included: this is the index whose duplicate labels make `reindex` raise. -/
def indexKeys (price : List PriceRowIn) : List (Option Nat) :=
  price.map (fun r => parseDate r.date)

/-- Key lookup of `reindex` on a unique index. -/
def lookupRow (valid : List (Nat × MarketData)) (d : Nat) : Option MarketData :=
  (valid.find? (fun p => p.1 = d)).map (fun p => p.2)

/-- Embeds `.reindex(full_range).ffill()`: walk the calendar carrying the last
seen value forward into slots with no matching row. -/
def ffillList (lookup : Nat → Option MarketData) :
    List Nat → Option MarketData → List (Nat × Option MarketData)
  | [], _ => []
  | d :: ds, cur =>
    match lookup d with
    | some m => (d, some m) :: ffillList lookup ds (some m)
    | none => (d, cur) :: ffillList lookup ds cur

/-- Minimum of `a :: l` via a fold, as `Series.min()` (NaT skipped upstream). -/
def listMinD (a : Nat) (l : List Nat) : Nat := l.foldl min a

/-- Maximum of `a :: l` via a fold, as `Series.max()`. -/
def listMaxD (a : Nat) (l : List Nat) : Nat := l.foldl max a

/-- Lexicographic `≤` on strings via their character sequences; this is
definitionally String's `≤` (`¬ b < a` with `<` lexicographic on `data`),
spelled with the core list order so that the kernel can evaluate it. -/
def strLE (a b : String) : Prop := ¬ @List.lt Char Char.instLT b.data a.data

instance : DecidableRel strLE := fun a b =>
  @instDecidableNot _ (List.hasDecidableLt b.data a.data)

lemma charListLt_trans {x y z : List Char} (h1 : List.lt x y) (h2 : List.lt y z) :
    List.lt x z := by
  rw [List.lt_iff_lex_lt] at h1 h2 ⊢
  exact IsTrans.trans x y z h1 h2

lemma charListLt_trichotomy (x y : List Char) :
    List.lt x y ∨ x = y ∨ List.lt y x := by
  rw [List.lt_iff_lex_lt, List.lt_iff_lex_lt]
  exact IsTrichotomous.trichotomous x y

lemma charListLt_asymm {x y : List Char} (h : List.lt x y) : ¬ List.lt y x := by
  rw [List.lt_iff_lex_lt] at h ⊢
  exact IsAsymm.asymm x y h

lemma strLE_total (a b : String) : strLE a b ∨ strLE b a := by
  unfold strLE
  by_cases h : List.lt b.data a.data
  · exact Or.inr (charListLt_asymm h)
  · exact Or.inl h

lemma strLE_trans {a b c : String} (h1 : strLE a b) (h2 : strLE b c) : strLE a c := by
  unfold strLE at h1 h2 ⊢
  intro hca
  rcases charListLt_trichotomy c.data b.data with h | h | h
  · exact h2 h
  · rw [h] at hca
    exact h1 hca
  · exact h1 (charListLt_trans h hca)

/-- Sort key of `news_df.sort_values(['date_only', 'time_str'])`. -/
def newsLE (a b : NewsParsed) : Prop :=
  a.date_only < b.date_only ∨ (a.date_only = b.date_only ∧ strLE a.time_str b.time_str)

instance : DecidableRel newsLE := fun a b => by
  unfold newsLE; exact inferInstance

instance : IsTotal NewsParsed newsLE where
  total a b := by
    unfold newsLE
    rcases Nat.lt_trichotomy a.date_only b.date_only with h | h | h
    · exact Or.inl (Or.inl h)
    · rcases strLE_total a.time_str b.time_str with ht | ht
      · exact Or.inl (Or.inr ⟨h, ht⟩)
      · exact Or.inr (Or.inr ⟨h.symm, ht⟩)
    · exact Or.inr (Or.inl h)

instance : IsTrans NewsParsed newsLE where
  trans a b c hab hbc := by
    unfold newsLE at *
    rcases hab with h1 | ⟨e1, t1⟩
    · rcases hbc with h2 | ⟨e2, _⟩
      · exact Or.inl (h1.trans h2)
      · exact Or.inl (e2 ▸ h1)
    · rcases hbc with h2 | ⟨e2, t2⟩
      · exact Or.inl (e1 ▸ h2)
      · exact Or.inr ⟨e1.trans e2, strLE_trans t1 t2⟩

/-- The surviving normalized headline rows, in input order: embeds the parse,
`dropna(subset=['Date_parsed'])`, UTC normalization and the `date_only` /
`time_str` column extraction (lines 43-55 of the source). -/
def survivors (news : List NewsRowIn) : List NewsParsed :=
  news.filterMap (fun r =>
    (parseNewsTS r.Date).map (fun v => ⟨v.1, timeStr v.2, r.Article_title⟩))

/-- Embeds `sort_values(['date_only', 'time_str'])` on the surviving rows.
(pandas' default quicksort and this insertion sort may order ties — identical
date and time — differently; no claim depends on tie order.) -/
def sortedNews (news : List NewsRowIn) : List NewsParsed :=
  List.insertionSort newsLE (survivors news)

/-- Embeds `news_by_date.get(date_key, [])` where `news_by_date` is the
`groupby('date_only')` dictionary: grouping the globally sorted frame and
then looking a date up is exactly filtering the sorted rows to that date. -/
def newsFor (news : List NewsRowIn) (d : Nat) : List (String × String) :=
  ((sortedNews news).filter (fun p => p.date_only = d)).map
    (fun p => (p.time_str, p.title))

/-- Embeds the combine loop (lines 65-83): one `DayRecord` per calendar slot;
a slot whose forward-filled values are still missing makes `int(...)` raise. -/
def buildHistory (nf : Nat → List (String × String)) :
    List (Nat × Option MarketData) → Except AggErr (List DayRecord)
  | [] => .ok []
  | (_, none) :: _ => .error .missingMarketData
  | (d, some m) :: rest =>
    match buildHistory nf rest with
    | .ok h => .ok (⟨d, m, nf d⟩ :: h)
    | .error e => .error e

/-- The reindexed-and-forward-filled daily frame `price_daily` for a price
table whose parseable rows are `v :: vs`: one slot per ordinal from the
minimum to the maximum parseable date. -/
def priceDaily (v : Nat × MarketData) (vs : List (Nat × MarketData)) :
    List (Nat × Option MarketData) :=
  ffillList (lookupRow (v :: vs))
    (List.range' (listMinD v.1 (vs.map Prod.fst))
      (listMaxD v.1 (vs.map Prod.fst) + 1 - listMinD v.1 (vs.map Prod.fst)))
    none

/-- The whole in-memory transformation of `aggregate_for_symbol` after the two
`read_csv` calls: price date parsing, calendar construction
(`pd.date_range(min, max)` raising if the range is undefined), `reindex`
(raising on duplicate index labels) + `ffill`, headline normalization and the
combine loop.  Returns the `history` list or the raised error. -/
def aggregateCore (price : List PriceRowIn) (news : List NewsRowIn) :
    Except AggErr (List DayRecord) :=
  match validRows price with
  | [] => .error .emptyDateRange
  | v :: vs =>
    if (indexKeys price).Nodup then
      buildHistory (newsFor news) (priceDaily v vs)
    else .error .duplicateLabels

/-- Forward-filled value of the calendar slot at offset `k` from `base`:
the last present lookup among days `base .. base + k`, else the carried-in
value `cur`.  Proof-side characterization of one slot of `ffillList`. -/
def ffillVal (lookup : Nat → Option MarketData) (cur : Option MarketData)
    (base : Nat) : Nat → Option MarketData
  | 0 =>
    match lookup base with
    | some m => some m
    | none => cur
  | k + 1 =>
    match lookup (base + (k + 1)) with
    | some m => some m
    | none => ffillVal lookup cur base k

/-- Zero-padded four-digit year, as strftime `%Y`. -/
def pad4 (n : Nat) : String :=
  if n < 10 then "000" ++ toString n
  else if n < 100 then "00" ++ toString n
  else if n < 1000 then "0" ++ toString n
  else toString n

/-- Civil date string `YYYY-MM-DD` of a day ordinal (inverse of `toOrdinal`,
standard civil-from-days formula); embeds `strftime('%Y-%m-%d')`. -/
def ordinalToDateStr (n : Nat) : String :=
  let era := n / 146097
  let doe := n % 146097
  let yoe := (doe - doe / 1460 + doe / 36524 - doe / 146096) / 365
  let y := yoe + era * 400
  let doy := doe - (365 * yoe + yoe / 4 - yoe / 100)
  let mp := (5 * doy + 2) / 153
  let d := doy - (153 * mp + 2) / 5 + 1
  let m := if mp < 10 then mp + 3 else mp - 9
  let y2 := if m ≤ 2 then y + 1 else y
  pad4 y2 ++ "-" ++ pad2 m ++ "-" ++ pad2 d

/-- JSON string escaping (quote and backslash; the inputs of interest contain
no control characters or non-ASCII text). -/
def jsonEscape (s : String) : String :=
  String.mk (s.data.foldr
    (fun c acc =>
      if c = '\"' then '\\' :: '\"' :: acc
      else if c = '\\' then '\\' :: '\\' :: acc
      else c :: acc)
    [])

def joinSep (sep : String) : List String → String
  | [] => ""
  | [x] => x
  | x :: y :: xs => x ++ sep ++ joinSep sep (y :: xs)

def renderHeadline (p : String × String) : String :=
  "\x7b\"time\": \"" ++ jsonEscape p.1 ++ "\", \"headline\": \"" ++
    jsonEscape p.2 ++ "\"\x7d"

def renderRecord (r : DayRecord) : String :=
  "\x7b\"date\": \"" ++ ordinalToDateStr r.date ++
    "\", \"market_data\": \x7b\"high\": " ++ toString r.market_data.high ++
    ", \"low\": " ++ toString r.market_data.low ++
    ", \"close\": " ++ toString r.market_data.close ++
    ", \"volume\": " ++ toString r.market_data.volume ++
    "\x7d, \"news_headlines\": [" ++
    joinSep ", " (r.news_headlines.map renderHeadline) ++ "]\x7d"

/-- The JSON text written by `json.dump({"history": history}, f, indent=2)`,
as a pure function of the history list.  (Python's whitespace layout and
float `repr` are themselves pure functions of the value; this renderer
stands for them — byte-level layout details do not matter to any claim.) -/
def renderJson (hist : List DayRecord) : String :=
  "\x7b\"history\": [" ++ joinSep ", " (hist.map renderRecord) ++ "]\x7d"

/-- The readable input files: what `pd.read_csv` yields at a given path, or
`none` when the read raises (missing/unreadable file). -/
structure FS where
  priceTable : String → Option (List PriceRowIn)
  newsTable : String → Option (List NewsRowIn)

/-- Errors of a whole run: an input read failure, or an error raised by the
in-memory transformation. -/
inductive RunErr where
  | ioError
  | agg (e : AggErr)
deriving DecidableEq, Repr

/-- Uppercasing of `str(symbol).upper()`. -/
def upStr (s : String) : String := String.mk (s.data.map Char.toUpper)

def defaultPricePath (u : String) : String :=
  "stock_price_history/" ++ u ++ "_price.csv"

def defaultNewsPath (u : String) : String :=
  "news_headlines/" ++ u ++ "_headlines.csv"

def defaultOutPath (u : String) : String :=
  "aggregated_data/" ++ u ++ "_aggregated.json"

/-- Embeds `aggregate_for_symbol`: resolve default paths from the upper-cased
symbol, read the two tables, run the transformation, and on success write the
rendered JSON at the output path (returned as (path, content); an error means
the run raised and nothing was written). -/
def aggregate_for_symbol (fs : FS) (symbol : String)
    (price_csv news_csv out_json : Option String) :
    Except RunErr (String × String) :=
  match fs.priceTable (price_csv.getD (defaultPricePath (upStr symbol))),
        fs.newsTable (news_csv.getD (defaultNewsPath (upStr symbol))) with
  | some pt, some nt =>
    match aggregateCore pt nt with
    | .ok hist =>
      .ok (out_json.getD (defaultOutPath (upStr symbol)), renderJson hist)
    | .error e => .error (.agg e)
  | _, _ => .error .ioError

/-- Embeds `aggregate_for_aapl`, the backward-compatible wrapper. -/
def aggregate_for_aapl (fs : FS) (price_csv news_csv out_json : Option String) :
    Except RunErr (String × String) :=
  aggregate_for_symbol fs "AAPL" price_csv news_csv out_json

/-- Two consecutive runs of the aggregator on the same inputs and output
path: the pair of (path, content) each run writes.  The input files are
unchanged by a run (the output file is not an input). -/
def runTwice (fs : FS) (symbol : String)
    (price_csv news_csv out_json : Option String) :
    Except RunErr ((String × String) × (String × String)) :=
  match aggregate_for_symbol fs symbol price_csv news_csv out_json with
  | .error e => .error e
  | .ok r1 =>
    match aggregate_for_symbol fs symbol price_csv news_csv out_json with
    | .error e => .error e
    | .ok r2 => .ok (r1, r2)

/-! Helper lemmas about the embedded pipeline. -/

lemma listMinD_le (l : List Nat) : ∀ a : Nat, listMinD a l ≤ a ∧ ∀ x ∈ l, listMinD a l ≤ x := by
  induction l with
  | nil => intro a; exact ⟨le_refl a, by simp⟩
  | cons b l ih =>
    intro a
    have h := ih (min a b)
    have heq : listMinD a (b :: l) = listMinD (min a b) l := rfl
    rw [heq]
    refine ⟨h.1.trans (min_le_left a b), ?_⟩
    intro x hx
    rcases List.mem_cons.1 hx with rfl | hx
    · exact h.1.trans (min_le_right a x)
    · exact h.2 x hx

lemma buildHistory_ok_map (nf : Nat → List (String × String)) :
    ∀ daily hist, buildHistory nf daily = .ok hist →
      hist.map (fun r => r.date) = daily.map Prod.fst := by
  intro daily
  induction daily with
  | nil => intro hist h; cases h; rfl
  | cons p rest ih =>
    intro hist h
    match p with
    | (d, none) => exact absurd h (by simp [buildHistory])
    | (d, some m) =>
      simp only [buildHistory] at h
      cases hb : buildHistory nf rest with
      | error e => rw [hb] at h; exact absurd h (by simp)
      | ok tl =>
        rw [hb] at h
        cases h
        simp [ih tl hb]

lemma buildHistory_ok_mem (nf : Nat → List (String × String)) :
    ∀ daily hist, buildHistory nf daily = .ok hist →
      ∀ r ∈ hist, (r.date, some r.market_data) ∈ daily ∧ r.news_headlines = nf r.date := by
  intro daily
  induction daily with
  | nil => intro hist h r hr; cases h; simp at hr
  | cons p rest ih =>
    intro hist h r hr
    match p with
    | (d, none) => exact absurd h (by simp [buildHistory])
    | (d, some m) =>
      simp only [buildHistory] at h
      cases hb : buildHistory nf rest with
      | error e => rw [hb] at h; exact absurd h (by simp)
      | ok tl =>
        rw [hb] at h
        cases h
        rcases List.mem_cons.1 hr with rfl | hr
        · exact ⟨List.mem_cons_self _ _, rfl⟩
        · have := ih tl hb r hr
          exact ⟨List.mem_cons_of_mem _ this.1, this.2⟩

lemma ffillVal_shift (lookup : Nat → Option MarketData) (cur : Option MarketData)
    (base : Nat) : ∀ k, ffillVal lookup cur base (k + 1) =
      ffillVal lookup (ffillVal lookup cur base 0) (base + 1) k := by
  intro k
  induction k with
  | zero => simp only [ffillVal, Nat.add_zero]
  | succ k ih =>
    show (match lookup (base + (k + 1 + 1)) with
          | some m => some m
          | none => ffillVal lookup cur base (k + 1)) = _
    rw [show base + (k + 1 + 1) = base + 1 + (k + 1) by omega, ih]
    rfl

lemma ffillList_range' (lookup : Nat → Option MarketData) :
    ∀ (n base : Nat) (cur : Option MarketData),
      ffillList lookup (List.range' base n) cur =
        (List.range n).map (fun k => (base + k, ffillVal lookup cur base k)) := by
  intro n
  induction n with
  | zero => intro base cur; rfl
  | succ n ih =>
    intro base cur
    rw [List.range'_succ, List.range_succ_eq_map, List.map_cons, List.map_map]
    have htail : ∀ v0, v0 = ffillVal lookup cur base 0 →
        ffillList lookup (List.range' (base + 1) n) v0 =
          (List.range n).map ((fun k => (base + k, ffillVal lookup cur base k)) ∘ Nat.succ) := by
      intro v0 hv0
      rw [ih (base + 1) v0]
      apply List.map_congr_left
      intro k _
      simp only [Function.comp_apply, Prod.mk.injEq, Nat.succ_eq_add_one]
      exact ⟨by omega, by rw [hv0]; exact (ffillVal_shift lookup cur base k).symm⟩
    simp only [ffillList]
    cases hl : lookup base with
    | some m =>
      have h0 : ffillVal lookup cur base 0 = some m := by simp [ffillVal, hl]
      show ((base, some m) :: ffillList lookup (List.range' (base + 1) n) (some m)) = _
      rw [htail (some m) h0.symm]
      congr 1
      simp [h0]
    | none =>
      have h0 : ffillVal lookup cur base 0 = cur := by simp [ffillVal, hl]
      show ((base, cur) :: ffillList lookup (List.range' (base + 1) n) cur) = _
      rw [htail cur h0.symm]
      congr 1
      simp [h0]

lemma ffillVal_none_spec (lookup : Nat → Option MarketData) (base : Nat) :
    ∀ k m, ffillVal lookup none base k = some m →
      ∃ j, j ≤ k ∧ lookup (base + j) = some m ∧
        ∀ j', j < j' → j' ≤ k → lookup (base + j') = none := by
  intro k
  induction k with
  | zero =>
    intro m h
    simp only [ffillVal] at h
    cases hl : lookup base with
    | some m' =>
      rw [hl] at h
      cases h
      exact ⟨0, le_refl 0, by simpa using hl, fun j' h1 h2 => absurd (h1.trans_le h2) (by omega)⟩
    | none => rw [hl] at h; cases h
  | succ k ih =>
    intro m h
    simp only [ffillVal] at h
    cases hl : lookup (base + (k + 1)) with
    | some m' =>
      rw [hl] at h
      cases h
      exact ⟨k + 1, le_refl _, hl, fun j' h1 h2 => absurd (h1.trans_le h2) (by omega)⟩
    | none =>
      rw [hl] at h
      rcases ih m h with ⟨j, hj, hlj, hgap⟩
      refine ⟨j, hj.trans (Nat.le_succ k), hlj, ?_⟩
      intro j' h1 h2
      rcases Nat.lt_succ_iff_lt_or_eq.1 (Nat.lt_succ_of_le h2) with h3 | rfl
      · exact hgap j' h1 (by omega)
      · exact hl

lemma lookupRow_eq_none_iff (valid : List (Nat × MarketData)) (d : Nat) :
    lookupRow valid d = none ↔ ∀ p ∈ valid, p.1 ≠ d := by
  unfold lookupRow
  cases hf : valid.find? (fun p => decide (p.1 = d)) with
  | none =>
    simp only [Option.map_none']
    rw [List.find?_eq_none] at hf
    constructor
    · intro _ p hp
      have := hf p hp
      simpa using this
    · intro _
      trivial
  | some q =>
    simp only [Option.map_some']
    constructor
    · intro h
      cases h
    · intro h
      have hq := List.find?_some hf
      have hm := List.mem_of_find?_eq_some hf
      exact absurd (by simpa using hq) (h q hm)

lemma lookupRow_eq_some_mem (valid : List (Nat × MarketData)) (d : Nat)
    (m : MarketData) (h : lookupRow valid d = some m) : (d, m) ∈ valid := by
  unfold lookupRow at h
  rcases Option.map_eq_some.1 h with ⟨p, hp, rfl⟩
  have hmem := List.mem_of_find?_eq_some hp
  have hpred := List.find?_some hp
  have : p.1 = d := by simpa using hpred
  rw [← this]
  exact hmem

lemma aggregateCore_ok_elim (price : List PriceRowIn) (news : List NewsRowIn)
    (hist : List DayRecord) (h : aggregateCore price news = .ok hist) :
    ∃ v vs, validRows price = v :: vs ∧ (indexKeys price).Nodup ∧
      buildHistory (newsFor news) (priceDaily v vs) = .ok hist := by
  unfold aggregateCore at h
  split at h
  · cases h
  · rename_i v vs heq
    split at h
    · rename_i hnd
      exact ⟨v, vs, heq, hnd, h⟩
    · cases h

lemma priceDaily_eq_map (v : Nat × MarketData) (vs : List (Nat × MarketData)) :
    priceDaily v vs =
      (List.range (listMaxD v.1 (vs.map Prod.fst) + 1 - listMinD v.1 (vs.map Prod.fst))).map
        (fun k => (listMinD v.1 (vs.map Prod.fst) + k,
          ffillVal (lookupRow (v :: vs)) none (listMinD v.1 (vs.map Prod.fst)) k)) :=
  ffillList_range' _ _ _ _

lemma aggregateCore_ok_dates (price : List PriceRowIn) (news : List NewsRowIn)
    (hist : List DayRecord) (v : Nat × MarketData) (vs : List (Nat × MarketData))
    (h : aggregateCore price news = .ok hist) (hval : validRows price = v :: vs) :
    hist.map (fun r => r.date) =
      List.range' (listMinD v.1 (vs.map Prod.fst))
        (listMaxD v.1 (vs.map Prod.fst) + 1 - listMinD v.1 (vs.map Prod.fst)) := by
  rcases aggregateCore_ok_elim price news hist h with ⟨v', vs', hval', hnd, hb⟩
  rw [hval] at hval'
  cases hval'
  rw [buildHistory_ok_map _ _ _ hb, priceDaily_eq_map, List.map_map,
    List.range'_eq_map_range]
  rfl

/-- Example input of spec §8.6: price rows for 2023-01-01 and 2023-01-03
(ordinals 738826 and 738828) and no headlines. -/
def exPrice : List PriceRowIn :=
  [⟨"2023-01-01", 10, 9, 9, 100⟩, ⟨"2023-01-03", 12, 11, 11, 200⟩]

def exMd1 : MarketData := ⟨10, 9, 9, 100⟩

def exMd2 : MarketData := ⟨12, 11, 11, 200⟩

/-- Expected output history for `exPrice`: 2023-01-02 forward-filled. -/
def exHist : List DayRecord :=
  [⟨738826, exMd1, []⟩, ⟨738827, exMd1, []⟩, ⟨738828, exMd2, []⟩]

/-- C1 (calendar completeness): whenever the aggregator succeeds and the
parseable price rows are `v :: vs`, the dates of the emitted history are
exactly the consecutive ordinals from the minimum parseable date `D1` to the
maximum `Dn` inclusive — `List.range' D1 (Dn + 1 - D1)` — i.e. exactly one
record per calendar day of the span, weekends and holidays included, with no
gaps, no duplicates, sorted ascending. -/
theorem calendar_completeness (price : List PriceRowIn) (news : List NewsRowIn)
    (hist : List DayRecord) (v : Nat × MarketData) (vs : List (Nat × MarketData))
    (h : aggregateCore price news = .ok hist) (hval : validRows price = v :: vs) :
    hist.map (fun r => r.date) =
      List.range' (listMinD v.1 (vs.map Prod.fst))
        (listMaxD v.1 (vs.map Prod.fst) + 1 - listMinD v.1 (vs.map Prod.fst)) :=
  aggregateCore_ok_dates price news hist v vs h hval

/-- Witness for C1 at the concrete input of spec §8.6. -/
theorem calendar_completeness_witness :
    aggregateCore exPrice [] = .ok exHist ∧
    validRows exPrice = [(738826, exMd1), (738828, exMd2)] ∧
    exHist.map (fun r => r.date) =
      List.range' (listMinD 738826 [738828])
        (listMaxD 738826 [738828] + 1 - listMinD 738826 [738828]) :=
  ⟨by decide, by decide,
   calendar_completeness exPrice [] exHist (738826, exMd1) [(738828, exMd2)]
     (by decide) (by decide)⟩

/-- C2 (forward-fill correctness): whenever the aggregator succeeds, every
emitted record whose date matches no parseable price row carries the market
data of the most recent earlier day that has a price row. -/
theorem forward_fill (price : List PriceRowIn) (news : List NewsRowIn)
    (hist : List DayRecord) (h : aggregateCore price news = .ok hist)
    (r : DayRecord) (hr : r ∈ hist)
    (hno : ∀ p ∈ validRows price, p.1 ≠ r.date) :
    ∃ q ∈ validRows price, q.1 < r.date ∧ r.market_data = q.2 ∧
      ∀ p ∈ validRows price, p.1 < r.date → p.1 ≤ q.1 := by
  rcases aggregateCore_ok_elim price news hist h with ⟨v, vs, hval, hnd, hb⟩
  have hmem := (buildHistory_ok_mem _ _ _ hb r hr).1
  rw [priceDaily_eq_map] at hmem
  rcases List.mem_map.1 hmem with ⟨k, hk, heq⟩
  rw [Prod.mk.injEq] at heq
  obtain ⟨hd, hv⟩ := heq
  have hnone : lookupRow (v :: vs) r.date = none := by
    rw [lookupRow_eq_none_iff]
    intro p hp
    exact hno p (hval ▸ hp)
  rcases ffillVal_none_spec _ _ k r.market_data hv with ⟨j, hjk, hlj, hgap⟩
  have hjne : j ≠ k := by
    intro hjeq
    rw [hjeq, hd] at hlj
    rw [hnone] at hlj
    cases hlj
  have hjlt : j < k := lt_of_le_of_ne hjk hjne
  refine ⟨(listMinD v.1 (vs.map Prod.fst) + j, r.market_data), ?_, ?_, rfl, ?_⟩
  · rw [hval]
    exact lookupRow_eq_some_mem _ _ _ hlj
  · omega
  · intro p hp hplt
    rw [hval] at hp
    have hpmin : listMinD v.1 (vs.map Prod.fst) ≤ p.1 := by
      rcases List.mem_cons.1 hp with hpv | hptl
      · rw [hpv]
        exact (listMinD_le (vs.map Prod.fst) v.1).1
      · exact (listMinD_le (vs.map Prod.fst) v.1).2 p.1
          (List.mem_map.2 ⟨p, hptl, rfl⟩)
    by_contra hgt
    push_neg at hgt
    have hj2 : p.1 - listMinD v.1 (vs.map Prod.fst) ≤ k := by omega
    have hj2gt : j < p.1 - listMinD v.1 (vs.map Prod.fst) := by omega
    have := hgap _ hj2gt hj2
    rw [show listMinD v.1 (vs.map Prod.fst) + (p.1 - listMinD v.1 (vs.map Prod.fst)) = p.1
      by omega] at this
    rw [lookupRow_eq_none_iff] at this
    exact this p hp rfl

/-- Witness for C2: the forward-filled 2023-01-02 record of the §8.6 example. -/
theorem forward_fill_witness :
    aggregateCore exPrice [] = .ok exHist ∧
    (⟨738827, exMd1, []⟩ : DayRecord) ∈ exHist ∧
    (∀ p ∈ validRows exPrice, p.1 ≠ 738827) ∧
    (∃ q ∈ validRows exPrice, q.1 < 738827 ∧ exMd1 = q.2 ∧
      ∀ p ∈ validRows exPrice, p.1 < 738827 → p.1 ≤ q.1) :=
  ⟨by decide, by decide, by decide,
   forward_fill exPrice [] exHist (by decide) ⟨738827, exMd1, []⟩ (by decide) (by decide)⟩

/-- Price table covering only 2023-01-01 (ordinal 738826). -/
def oobPrice : List PriceRowIn := [⟨"2023-01-01", 10, 9, 9, 100⟩]

/-- Two same-day UTC headlines used to witness the amended C3. -/
def wNews : List NewsRowIn :=
  [⟨"2023-01-02 08:00:00 UTC", "morning"⟩, ⟨"2023-01-02 09:30:00 UTC", "later"⟩]

/-- Expected output history for `exPrice` joined with `wNews`. -/
def wHist : List DayRecord :=
  [⟨738826, exMd1, []⟩,
   ⟨738827, exMd1, [("08:00:00", "morning"), ("09:30:00", "later")]⟩,
   ⟨738828, exMd2, []⟩]

/-- Price table whose calendar covers 2023-01-02 and 2023-01-03 (ordinals
738827 and 738828). -/
def estPrice : List PriceRowIn :=
  [⟨"2023-01-02", 10, 9, 9, 100⟩, ⟨"2023-01-03", 12, 11, 11, 200⟩]

/-- The headline of spec §8.7, timestamped `2023-01-02 23:30:00 EST`. -/
def estNews : List NewsRowIn := [⟨"2023-01-02 23:30:00 EST", "Fed raises rates"⟩]

/-- C5 (EST example, spec §8.7): the headline `2023-01-02 23:30:00 EST`
matches the primary `%Z` format — pandas' strptime matches `EST` against the
pytz database and attaches `pytz.timezone('EST')` (fixed UTC−5) — so with
`utc=True` the moment becomes 2023-01-03 04:30:00 UTC and the row is emitted
under the DayRecord with date 2023-01-03 (ordinal 738828) with time string
"04:30:00".  Checked on the full output of a price calendar covering
2023-01-02 and 2023-01-03. -/
theorem est_headline_example :
    parseDate "2023-01-02" = some 738827 ∧
    parseDate "2023-01-03" = some 738828 ∧
    primaryParseTS "2023-01-02 23:30:00 EST" = some (738828, 16200) ∧
    timeStr 16200 = "04:30:00" ∧
    aggregateCore estPrice estNews =
      .ok [⟨738827, exMd1, []⟩,
           ⟨738828, exMd2, [("04:30:00", "Fed raises rates")]⟩] ∧
    ∃ r ∈ [(⟨738827, exMd1, []⟩ : DayRecord),
           ⟨738828, exMd2, [("04:30:00", "Fed raises rates")]⟩],
      r.date = 738828 ∧ ("04:30:00", "Fed raises rates") ∈ r.news_headlines := by
  exact ⟨by decide, by decide, by decide, by decide, by decide, by decide⟩

/-- C6 (zero valid price rows): when both input tables read successfully but
no price row has a strictly parseable `YYYY-MM-DD` date, the run raises
(`pd.date_range(NaT, NaT)` is a ValueError) and propagates the error; no
output document is produced. -/
theorem empty_price_error (fs : FS) (symbol : String) (p n o : Option String)
    (pt : List PriceRowIn) (nt : List NewsRowIn)
    (hp : fs.priceTable (p.getD (defaultPricePath (upStr symbol))) = some pt)
    (hn : fs.newsTable (n.getD (defaultNewsPath (upStr symbol))) = some nt)
    (h0 : validRows pt = []) :
    aggregate_for_symbol fs symbol p n o = .error (.agg .emptyDateRange) := by
  unfold aggregate_for_symbol
  rw [hp, hn]
  show (match aggregateCore pt nt with
        | .ok hist => Except.ok (o.getD (defaultOutPath (upStr symbol)), renderJson hist)
        | .error e => Except.error (RunErr.agg e)) = _
  unfold aggregateCore
  rw [h0]

/-- The all-invalid-dates price table used to witness C6. -/
def badPrice : List PriceRowIn := [⟨"not-a-date", 1, 1, 1, 1⟩, ⟨"junk", 2, 2, 2, 2⟩]

/-- A concrete file system with one price file and one news file. -/
def wfsEmpty : FS :=
  ⟨fun q => if q = "p.csv" then some badPrice else none,
   fun q => if q = "n.csv" then some [] else none⟩

/-- Witness for C6 at a concrete file system. -/
theorem empty_price_error_witness :
    wfsEmpty.priceTable ((some "p.csv").getD (defaultPricePath (upStr "x"))) = some badPrice ∧
    wfsEmpty.newsTable ((some "n.csv").getD (defaultNewsPath (upStr "x"))) = some [] ∧
    validRows badPrice = [] ∧
    aggregate_for_symbol wfsEmpty "x" (some "p.csv") (some "n.csv") (some "o.json") =
      .error (.agg .emptyDateRange) :=
  ⟨by decide, by decide, by decide,
   empty_price_error wfsEmpty "x" (some "p.csv") (some "n.csv") (some "o.json")
     badPrice [] (by decide) (by decide) (by decide)⟩

/-- C7 (determinism / idempotence): two consecutive runs of the aggregator on
identical inputs and the same output path write the same path and
byte-identical JSON text.  The whole pipeline is a pure function of the two
input tables, so whenever both runs succeed their (path, content) results are
equal. -/
theorem deterministic_runs (fs : FS) (symbol : String) (p n o : Option String)
    (r1 r2 : String × String) (h : runTwice fs symbol p n o = .ok (r1, r2)) :
    r1 = r2 := by
  unfold runTwice at h
  cases ha : aggregate_for_symbol fs symbol p n o with
  | error e =>
    rw [ha] at h
    cases h
  | ok r =>
    rw [ha] at h
    simp only [Except.ok.injEq, Prod.mk.injEq] at h
    exact h.1.symm.trans h.2

/-- A concrete file system used to witness C7. -/
def wfsRun : FS :=
  ⟨fun q => if q = "p.csv" then some exPrice else none,
   fun q => if q = "n.csv" then some wNews else none⟩

/-- Witness for C7: a concrete double run whose two writes coincide. -/
theorem deterministic_runs_witness :
    runTwice wfsRun "x" (some "p.csv") (some "n.csv") (some "o.json") =
      .ok (("o.json", renderJson wHist), ("o.json", renderJson wHist)) ∧
    ("o.json", renderJson wHist) = (("o.json", renderJson wHist) : String × String) :=
  have h : runTwice wfsRun "x" (some "p.csv") (some "n.csv") (some "o.json") =
      .ok (("o.json", renderJson wHist), ("o.json", renderJson wHist)) := by rfl
  ⟨h, deterministic_runs wfsRun "x" (some "p.csv") (some "n.csv") (some "o.json") _ _ h⟩

lemma not_nodup_two {α : Type} (A B C : List α) (x : α) :
    ¬ (A ++ x :: (B ++ x :: C)).Nodup := by
  intro h
  rcases List.nodup_append.1 h with ⟨_, h2, _⟩
  rcases List.nodup_cons.1 h2 with ⟨hx, _⟩
  exact hx (List.mem_append_right B (List.mem_cons_self x C))

/-- C9 (duplicate parseable dates): when the price table contains two rows
carrying the same parseable date, `reindex` raises on the duplicate index
labels, the run fails, and no output is written. -/
theorem duplicate_dates_error (fs : FS) (symbol : String) (p n o : Option String)
    (pt : List PriceRowIn) (nt : List NewsRowIn)
    (pre mid post : List PriceRowIn) (r1 r2 : PriceRowIn) (d : Nat)
    (hp : fs.priceTable (p.getD (defaultPricePath (upStr symbol))) = some pt)
    (hn : fs.newsTable (n.getD (defaultNewsPath (upStr symbol))) = some nt)
    (hpt : pt = pre ++ r1 :: (mid ++ r2 :: post))
    (h1 : parseDate r1.date = some d) (h2 : parseDate r2.date = some d) :
    aggregate_for_symbol fs symbol p n o = .error (.agg .duplicateLabels) := by
  have hmem : (d, (⟨r1.high, r1.low, r1.close, r1.volume⟩ : MarketData)) ∈ validRows pt := by
    rw [hpt]
    unfold validRows
    apply List.mem_filterMap.2
    refine ⟨r1, by simp, ?_⟩
    rw [h1]
    rfl
  have hnd : ¬ (indexKeys pt).Nodup := by
    rw [hpt]
    unfold indexKeys
    rw [List.map_append, List.map_cons, List.map_append, List.map_cons, h1, h2]
    exact not_nodup_two _ _ _ (some d)
  unfold aggregate_for_symbol
  rw [hp, hn]
  show (match aggregateCore pt nt with
        | .ok hist => Except.ok (o.getD (defaultOutPath (upStr symbol)), renderJson hist)
        | .error e => Except.error (RunErr.agg e)) = _
  unfold aggregateCore
  cases hv : validRows pt with
  | nil =>
    rw [hv] at hmem
    cases hmem
  | cons v vs =>
    simp [hnd]

/-- A price table with 2023-01-01 listed twice, witnessing C9. -/
def dupPrice : List PriceRowIn :=
  [⟨"2023-01-01", 10, 9, 9, 100⟩, ⟨"2023-01-01", 12, 11, 11, 200⟩]

/-- A concrete file system serving `dupPrice`. -/
def wfsDup : FS :=
  ⟨fun q => if q = "p.csv" then some dupPrice else none,
   fun q => if q = "n.csv" then some [] else none⟩

/-- Witness for C9 at a concrete file system. -/
theorem duplicate_dates_error_witness :
    wfsDup.priceTable ((some "p.csv").getD (defaultPricePath (upStr "x"))) = some dupPrice ∧
    parseDate "2023-01-01" = some 738826 ∧
    aggregate_for_symbol wfsDup "x" (some "p.csv") (some "n.csv") (some "o.json") =
      .error (.agg .duplicateLabels) :=
  ⟨by decide, by decide,
   duplicate_dates_error wfsDup "x" (some "p.csv") (some "n.csv") (some "o.json")
     dupPrice [] [] [] [] ⟨"2023-01-01", 10, 9, 9, 100⟩ ⟨"2023-01-01", 12, 11, 11, 200⟩
     738826 (by decide) (by decide) (by decide) (by decide) (by decide)⟩

/-- C10 (wrapper refinement): `aggregate_for_aapl` behaves identically to
`aggregate_for_symbol` applied to the symbol "AAPL" on all inputs — same
output written and same errors raised. -/
theorem aapl_wrapper_equiv (fs : FS) (p n o : Option String) :
    aggregate_for_aapl fs p n o = aggregate_for_symbol fs "AAPL" p n o := rfl

lemma validRows_filter (price : List PriceRowIn) :
    validRows (price.filter (fun r => (parseDate r.date).isSome)) = validRows price := by
  induction price with
  | nil => rfl
  | cons r rest ih =>
    unfold validRows at ih ⊢
    cases hd : parseDate r.date with
    | none => simp [List.filter_cons, List.filterMap_cons, hd, ih]
    | some d => simp [List.filter_cons, List.filterMap_cons, hd, ih]

lemma indexKeys_filter (price : List PriceRowIn) :
    indexKeys (price.filter (fun r => (parseDate r.date).isSome)) =
      (indexKeys price).filter (fun x => x.isSome) := by
  induction price with
  | nil => rfl
  | cons r rest ih =>
    unfold indexKeys at ih ⊢
    cases hd : parseDate r.date with
    | none => simp [List.filter_cons, hd, ih]
    | some d => simp [List.filter_cons, hd, ih]

lemma indexKeys_none_length (price : List PriceRowIn) :
    ((indexKeys price).filter (fun x => x.isNone)).length =
      (price.filter (fun r => (parseDate r.date).isNone)).length := by
  induction price with
  | nil => rfl
  | cons r rest ih =>
    unfold indexKeys at ih ⊢
    cases hd : parseDate r.date with
    | none => simp [List.filter_cons, hd, ih]
    | some d => simp [List.filter_cons, hd, ih]

lemma nodup_of_few_none (l : List (Option Nat))
    (hs : (l.filter (fun x => x.isSome)).Nodup)
    (hn : (l.filter (fun x => x.isNone)).length ≤ 1) : l.Nodup := by
  induction l with
  | nil => exact List.nodup_nil
  | cons a l ih =>
    cases a with
    | none =>
      have hlen : l.filter (fun x => Option.isNone x) = [] := by
        have h : (none :: l.filter (fun x => Option.isNone x)).length ≤ 1 := hn
        have h2 : (l.filter (fun x => Option.isNone x)).length = 0 := by
          rw [List.length_cons] at h
          omega
        exact List.length_eq_zero.1 h2
      have hnone : (none : Option Nat) ∉ l := by
        intro hmem
        have hm : (none : Option Nat) ∈ l.filter (fun x => x.isNone) :=
          List.mem_filter.2 ⟨hmem, rfl⟩
        rw [hlen] at hm
        cases hm
      refine List.nodup_cons.2 ⟨hnone, ih ?_ ?_⟩
      · simpa [List.filter_cons] using hs
      · simp [hlen]
    | some x =>
      have hcons : (Option.some x :: l.filter (fun y => y.isSome)).Nodup := by
        simpa [List.filter_cons] using hs
      rcases List.nodup_cons.1 hcons with ⟨hnot, htl⟩
      have hx : some x ∉ l := fun hmem => hnot (List.mem_filter.2 ⟨hmem, rfl⟩)
      refine List.nodup_cons.2 ⟨hx, ih htl ?_⟩
      simpa [List.filter_cons] using hn

/-- Refutation of C8 as stated: with one valid row and two unparseable rows,
the run raises instead of silently dropping the bad rows — both unparseable
dates become NaT index labels, which pandas treats as duplicates of each
other, so `reindex` raises — whereas with the bad rows removed the run
succeeds.  (`oobPrice` is the one valid 2023-01-01 row; `badPrice` is two
rows with unparseable dates.) -/
theorem price_bad_rows_counterexample :
    aggregateCore (oobPrice ++ badPrice) [] = .error .duplicateLabels ∧
    aggregateCore oobPrice [] = .ok [⟨738826, exMd1, []⟩] :=
  ⟨by decide, by decide⟩

/-- C8 as amended: when at most ONE price row has an unparseable date, the
bad rows are silently dropped — the run behaves exactly as on the table with
the unparseable rows removed, so they affect neither the calendar start/end
nor any DayRecord; with two or more unparseable rows the duplicate NaT
labels make the run raise instead (see the counterexample). -/
theorem price_bad_rows_dropped (price : List PriceRowIn) (news : List NewsRowIn)
    (h1 : (price.filter (fun r => (parseDate r.date).isNone)).length ≤ 1) :
    aggregateCore price news =
      aggregateCore (price.filter (fun r => (parseDate r.date).isSome)) news := by
  have hiff : (indexKeys (price.filter (fun r => (parseDate r.date).isSome))).Nodup ↔
      (indexKeys price).Nodup := by
    rw [indexKeys_filter]
    constructor
    · intro hc
      apply nodup_of_few_none _ hc
      rw [indexKeys_none_length]
      exact h1
    · intro hnd
      exact hnd.filter _
  unfold aggregateCore
  rw [validRows_filter]
  cases hv : validRows price with
  | nil => rfl
  | cons v vs =>
    by_cases hnd : (indexKeys price).Nodup
    · simp [hnd, hiff.2 hnd]
    · have hnf : ¬ (indexKeys (price.filter (fun r => (parseDate r.date).isSome))).Nodup :=
        fun hc => hnd (hiff.1 hc)
      simp [hnd, hnf]

/-- A price table with exactly one unparseable date among valid rows. -/
def oneBadPrice : List PriceRowIn :=
  [⟨"2023-01-01", 10, 9, 9, 100⟩, ⟨"oops", 1, 1, 1, 1⟩, ⟨"2023-01-02", 12, 11, 11, 200⟩]

/-- Witness for the amended C8 at a concrete input. -/
theorem price_bad_rows_dropped_witness :
    ((oneBadPrice.filter (fun r => (parseDate r.date).isNone)).length ≤ 1) ∧
    aggregateCore oneBadPrice [] =
      aggregateCore (oneBadPrice.filter (fun r => (parseDate r.date).isSome)) [] :=
  ⟨by decide, price_bad_rows_dropped oneBadPrice [] (by decide)⟩

end StockAgg
